import Mathlib

/-!
Verification of the `shelf` deployment engine's core against its specification.

The development shallowly embeds the Rust sources:

* `src/libshelf/src/journal/rollback.rs` — `RollbackIter`, `Journal::rollback`,
  `Journal::rollback_last`;
* `src/src/action/link.rs` — `LinkAction::resolve`, `resolve_link`, `resolve_copy`;
* `src/src/action/mkdir.rs` — `MkdirAction::resolve`, `mkdir_parents_ops`;
* `src/libshelf/src/action/write.rs` — `WriteAction::resolve`.

The journal container itself (`Journal::append`, `get_back`, `latest`, spec §4.4) and the
filesystem probe (`fse`, spec §4.1) are not among the provided sources; those pieces are
modelled from the specification and are marked as such in their doc comments.  The byte
writer behind the journal is modelled as infallible (spec §4.4: an append serializes,
writes, flushes and then pushes into the in-memory vector; a writer error leaves the state
unchanged — error-free writers make `append` a pure push).
-/

/-- Journal record (`Record<T> = Action(T) | Commit`, spec §3 / `journal/mod.rs`). -/
inductive Record (T : Type) where
  | action : T → Record T
  | commit : Record T
  deriving DecidableEq, Repr

/-- Modelled from the spec: `Journal::get_back(i)` is the `i`-th record from the end,
zero-based, `None` if out of range (spec §4.4; `journal/mod.rs` is not among the sources). -/
def getBack {T : Type} (records : List (Record T)) (i : Nat) : Option (Record T) :=
  records.reverse[i]?

/-- Modelled from the spec: `Journal::latest()` is the last record or `None` (spec §4.4). -/
def latest {T : Type} (records : List (Record T)) : Option (Record T) :=
  records.getLast?

/-- State of a `RollbackIter<'j, T, W>` (`journal/rollback.rs`): the exclusively borrowed
journal is represented by its in-memory record vector, together with the current reverse
index `idx` and the `appended` flag. -/
structure RollbackIter (T : Type) where
  journal : List (Record T)
  idx : Nat
  appended : Bool
  deriving DecidableEq, Repr

namespace RollbackIter

/-- One call of `RollbackIter::next` (`journal/rollback.rs:96-127`), with the journal's
writer modelled as infallible, so `Journal::append` is a pure push and the `Err` arm of the
source (which would yield `Some(Err(..))`) is unreachable.  On an `Action` record the
inverse is appended and returned; on `Commit` or past the beginning, nothing happens unless
`appended` is set, in which case a `Commit` is appended.  Each successful append bumps
`idx` a second time because the appended record shifts every reverse index by one. -/
def next {T : Type} (rb : T → T) (s : RollbackIter T) : Option T × RollbackIter T :=
  match getBack s.journal s.idx with
  | some (Record.action a) =>
      let rdata := rb a
      (some rdata, ⟨s.journal ++ [Record.action rdata], s.idx + 2, true⟩)
  | _ =>
      if s.appended then
        (none, ⟨s.journal ++ [Record.commit], s.idx + 2, s.appended⟩)
      else
        (none, s)

/-- Drive `next` until it first returns `None` (or fuel runs out), collecting the yielded
inverses.  This is how the executor and the tests consume a `RollbackIter`. -/
def run {T : Type} (rb : T → T) : Nat → RollbackIter T → List T × RollbackIter T
  | 0, s => ([], s)
  | Nat.succ fuel, s =>
      match next rb s with
      | (some a, s') =>
          let p := run rb fuel s'
          (a :: p.1, p.2)
      | (none, s') => ([], s')

end RollbackIter

/-- `Journal::rollback` positions a fresh iterator at reverse index `k` ( `new_idx`;
`Journal::rollback` itself uses `k = 0`, `Journal::rollback_last` uses `k = 1` ) and this
function exhausts it; `journal.length + 1` steps always suffice to reach the first `None`.
Returns the yielded inverses and the final journal contents. -/
def rollbackFrom {T : Type} (rb : T → T) (journal : List (Record T)) (k : Nat) :
    List T × List (Record T) :=
  let p := RollbackIter.run rb (journal.length + 1) ⟨journal, k, false⟩
  (p.1, p.2.journal)

/-- `Journal::rollback` (`journal/rollback.rs:42-44`): a rollback iterator at the latest
reverse position, exhausted. -/
def journalRollback {T : Type} (rb : T → T) (journal : List (Record T)) :
    List T × List (Record T) :=
  rollbackFrom rb journal 0

/-- `Journal::rollback_last` (`journal/rollback.rs:53-58`): when the latest record is a
commit, an iterator positioned one step back (`new_idx(self, 1)`); otherwise (empty
journal via the `?` operator, or a non-commit latest record) `None`. -/
def rollbackLast {T : Type} (journal : List (Record T)) : Option (RollbackIter T) :=
  match latest journal with
  | some Record.commit => some ⟨journal, 1, false⟩
  | some (Record.action _) => none
  | none => none

/-- Longest run of `Action` payloads at the front of a (reversed) record list, i.e. the
actions a rollback walk encounters before hitting a `Commit` or the beginning. -/
def takeActions {T : Type} : List (Record T) → List T
  | Record.action a :: rs => a :: takeActions rs
  | _ => []

/-- What remains of a (reversed) record list after `takeActions`. -/
def takeRest {T : Type} : List (Record T) → List (Record T)
  | Record.action _ :: rs => takeRest rs
  | rs => rs

/-- Test datum of `journal/rollback.rs` (`Datum::Forward/Backward`), whose rollback swaps
the two variants. -/
inductive Datum where
  | forward : Datum
  | backward : Datum
  deriving DecidableEq, Repr

/-- `impl Rollback for Datum` from the test module of `journal/rollback.rs`. -/
def Datum.rollback : Datum → Datum
  | Datum.forward => Datum.backward
  | Datum.backward => Datum.forward

/-! ## Filesystem model (spec §4.1) and primitive op payloads -/

/-- Absolute paths, as their component lists (root `/` is `[]`; `Path::parent` drops the
last component and is `None` at the root). -/
abbrev FPath := List String

/-- Relevant part of `std::fs::Metadata` as obtained from `symlink_metadata` (symlink
metadata is not followed, so exactly one of the three flags is set for real files). -/
structure Metadata where
  is_file : Bool
  is_dir : Bool
  is_symlink : Bool
  deriving DecidableEq, Repr

/-- Modelled from the spec: the read-only filesystem probe of §4.1 (`fse` and the
`std::fs` queries the resolvers use).  `meta` is `symlink_metadata` (absent for both
non-existence and permission errors), `readLink` is `fs::read_link`, `readStr` is
`fs::read_to_string`. -/
structure FsProbe where
  meta : FPath → Option Metadata
  readLink : FPath → Option FPath
  readStr : FPath → Option String

/-- Modelled from the spec: `fse::symlink_exists(path)` is equivalent to
`meta(path).is_some()` (spec §4.1; the `fse` module is not among the sources). -/
def symlinkExists (fs : FsProbe) (p : FPath) : Bool :=
  (fs.meta p).isSome

/-- `RmOp { path, dir }` (`op/rm.rs`). -/
structure RmOp where
  path : FPath
  dir : Bool
  deriving DecidableEq, Repr

/-- `LinkOp { src, dest }` (`op/link.rs`). -/
structure LinkOp where
  src : FPath
  dest : FPath
  deriving DecidableEq, Repr

/-- `CopyOp { src, dest, dir }` (`op/copy.rs`). -/
structure CopyOp where
  src : FPath
  dest : FPath
  dir : Bool
  deriving DecidableEq, Repr

/-- `MkdirOp { path }` (`op/mkdir.rs`, as constructed by `src/src/action/mkdir.rs`). -/
structure MkdirOp where
  path : FPath
  deriving DecidableEq, Repr

/-! ## `mkdir_parents_ops` (`src/src/action/mkdir.rs:80-101`) -/

/-- The collection loop of `mkdir_parents_ops`: starting from the target's parent, walk
the parent chain (deepest to root), pushing a `MkdirOp` for every parent that does not
exist.  The Rust `while let Some(parent)` loop runs exactly once per proper ancestor, that
is `p.length` times for a path of `p.length` components, which is the structural fuel used
here. -/
def mkdirParentsWalk (fs : FsProbe) : Nat → FPath → List MkdirOp
  | 0, _ => []
  | Nat.succ fuel, p =>
      let parent := p.dropLast
      (if symlinkExists fs parent then [] else [MkdirOp.mk parent]) ++
        mkdirParentsWalk fs fuel parent

/-- `mkdir_parents_ops` (`src/src/action/mkdir.rs:80-101`): collect mkdir ops for the
nonexisting parents deepest-first, then emit them reversed (`ops.into_iter().rev()`),
i.e. root-first. -/
def mkdir_parents_ops (fs : FsProbe) (path : FPath) : List MkdirOp :=
  (mkdirParentsWalk fs path.length path).reverse

/-- Specification-side description of the proper ancestors of a path in root-first order:
`[]`, then the first component, and so on up to (excluding) the path itself. -/
def ancestorsRootFirst (p : FPath) : List FPath :=
  (List.range p.length).map fun i => p.take i

/-- Specification-side "proper ancestor" relation on absolute paths: `q` is a proper
ancestor of `p` when it is a strictly shorter initial segment of `p`'s components. -/
def properAncestor (q p : FPath) : Prop :=
  q.length < p.length ∧ p.take q.length = q

/-! ## `LinkAction` (`src/src/action/link.rs`) -/

/-- `LinkAction { src, dest, copy, optional }`. -/
structure LinkAction where
  src : FPath
  dest : FPath
  copy : Bool
  optional : Bool
  deriving DecidableEq, Repr

/-- `link::Error`: `src` was not found and `optional` was false. -/
inductive LinkError where
  | srcMissing : LinkError
  deriving DecidableEq, Repr

/-- `link::Skip`: reason for skipping a `LinkAction`. -/
inductive LinkSkip where
  | sameSrcDest : LinkSkip
  | optMissing : LinkSkip
  | destExists : LinkSkip
  deriving DecidableEq, Repr

/-- `link::Op`: operation created by `LinkAction` resolution. -/
inductive LinkActionOp where
  | rm : RmOp → LinkActionOp
  | link : LinkOp → LinkActionOp
  | copy : CopyOp → LinkActionOp
  | mkdir : MkdirOp → LinkActionOp
  deriving DecidableEq, Repr

/-- `link::Res`: resolution of a `LinkAction`. -/
inductive LinkRes where
  | normal : List LinkActionOp → LinkRes
  | overwrite : List LinkActionOp → LinkRes
  | skip : LinkSkip → LinkRes
  deriving DecidableEq, Repr

/-- The `src_is_dir` computation of `resolve_copy` (`link.rs:165-168`). -/
def src_is_dir (fs : FsProbe) (src : FPath) : Bool :=
  match fs.meta src with
  | some m => m.is_dir
  | none => false

namespace LinkAction

/-- `LinkAction::resolve_link` (`link.rs:106-159`).  The `(overwrite, is_dir)` pair is
computed from `symlink_metadata(dest)` and then either an overwriting `[Rm, Link]` list or
a normal `[missing-ancestor Mkdirs, Link]` list is produced.  In the symlink arm the
source unwraps `fs::read_link(dest)` (it cannot fail there for a well-formed probe); the
unreachable `none` case is mapped to the non-matching-target outcome. -/
def resolve_link (fs : FsProbe) (a : LinkAction) : Except LinkError LinkRes :=
  let finish : Bool × Bool → Except LinkError LinkRes := fun ow =>
    let link_op := LinkActionOp.link ⟨a.src, a.dest⟩
    if ow.1 then
      Except.ok (LinkRes.overwrite [LinkActionOp.rm ⟨a.dest, ow.2⟩, link_op])
    else
      Except.ok (LinkRes.normal
        ((mkdir_parents_ops fs a.dest).map LinkActionOp.mkdir ++ [link_op]))
  match fs.meta a.dest with
  | some m =>
      if m.is_symlink then
        match fs.readLink a.dest with
        | some target =>
            if target = a.src then Except.ok (LinkRes.skip LinkSkip.destExists)
            else finish (true, false)
        | none => finish (true, false)
      else if m.is_dir then finish (true, true)
      else if m.is_file then finish (true, false)
      else finish (false, false)
  | none => finish (false, false)

/-- `LinkAction::resolve_copy` (`link.rs:162-218`).  Note the arm order of the source
match: `is_file` (with the byte-equality check through `read_to_string`) is tested before
`is_dir` and `is_symlink`. -/
def resolve_copy (fs : FsProbe) (a : LinkAction) : Except LinkError LinkRes :=
  let finish : Bool × Bool → Except LinkError LinkRes := fun ow =>
    let copy_op := LinkActionOp.copy ⟨a.src, a.dest, src_is_dir fs a.src⟩
    if ow.1 then
      Except.ok (LinkRes.overwrite [LinkActionOp.rm ⟨a.dest, ow.2⟩, copy_op])
    else
      Except.ok (LinkRes.normal
        ((mkdir_parents_ops fs a.dest).map LinkActionOp.mkdir ++ [copy_op]))
  match fs.meta a.dest with
  | some m =>
      if m.is_file then
        let content_same :=
          match fs.readStr a.src with
          | some src_contents =>
              match fs.readStr a.dest with
              | some dest_contents => decide (src_contents = dest_contents)
              | none => false
          | none => false
        if content_same then Except.ok (LinkRes.skip LinkSkip.destExists)
        else finish (true, false)
      else if m.is_dir then finish (true, true)
      else if m.is_symlink then finish (true, false)
      else finish (false, false)
  | none => finish (false, false)

/-- `LinkAction::resolve` (`link.rs:70-100`): same-path skip, then the
`(optional, symlink_exists(src))` match, then dispatch on `copy`. -/
def resolve (fs : FsProbe) (a : LinkAction) : Except LinkError LinkRes :=
  if a.src = a.dest then Except.ok (LinkRes.skip LinkSkip.sameSrcDest)
  else
    match a.optional, symlinkExists fs a.src with
    | true, false => Except.ok (LinkRes.skip LinkSkip.optMissing)
    | false, false => Except.error LinkError.srcMissing
    | _, _ => if a.copy then resolve_copy fs a else resolve_link fs a

end LinkAction

/-! ## `MkdirAction` (`src/src/action/mkdir.rs`) -/

/-- `MkdirAction { path, parents }`. -/
structure MkdirAction where
  path : FPath
  parents : Bool
  deriving DecidableEq, Repr

/-- `mkdir::Skip`. -/
inductive MkdirSkip where
  | destExists : MkdirSkip
  deriving DecidableEq, Repr

/-- `mkdir::Op`. -/
inductive MkdirActionOp where
  | rm : RmOp → MkdirActionOp
  | mkdir : MkdirOp → MkdirActionOp
  deriving DecidableEq, Repr

/-- `mkdir::Res`. -/
inductive MkdirRes where
  | normal : List MkdirActionOp → MkdirRes
  | overwrite : List MkdirActionOp → MkdirRes
  | skip : MkdirSkip → MkdirRes
  deriving DecidableEq, Repr

/-- `MkdirAction::resolve` (`mkdir.rs:44-77`): an existing directory skips; any other
existing file yields `(overwrite, is_dir) = (true, false)` and the overwrite branch emits
only `[Rm { path, dir: false }]`; a nonexistent path yields the normal branch with the
optional missing-ancestor mkdirs followed by `Mkdir { path }`. -/
def MkdirAction.resolve (fs : FsProbe) (a : MkdirAction) : MkdirRes :=
  match fs.meta a.path with
  | some m =>
      if m.is_dir then MkdirRes.skip MkdirSkip.destExists
      else MkdirRes.overwrite [MkdirActionOp.rm ⟨a.path, false⟩]
  | none =>
      let ops :=
        if a.parents then (mkdir_parents_ops fs a.path).map MkdirActionOp.mkdir
        else []
      MkdirRes.normal (ops ++ [MkdirActionOp.mkdir ⟨a.path⟩])

/-! ## `WriteAction` (`src/libshelf/src/action/write.rs`) -/

/-- `WriteAction { dest, contents }` of the legacy `libshelf` crate. -/
structure WriteAction where
  dest : FPath
  contents : String
  deriving DecidableEq, Repr

/-- `error::NoError`: the uninhabited error type of `WriteAction` resolution
(`pub type WriteActionError = NoError`). -/
inductive NoError where
  deriving DecidableEq, Repr

deriving instance DecidableEq for Except

/-- `String::into_bytes` — the UTF-8 bytes of the contents string. -/
def intoBytes (s : String) : List UInt8 :=
  s.data.flatMap String.utf8EncodeChar

/-- Modelled from the spec: the single missing-ancestor mkdir op returned by
`link::mkparents_op` of `libshelf` (that module is not among the sources; only this
caller is).  Per spec §4.2 the missing-ancestor computation walks the parents of the
target deepest-to-root, collects those where `exists_symlink` is false, and emits them
root-first; `mkparents_op` packages that list as one op, returning `None` when no
ancestor is missing ("add op to make parent directories if they don't exist"). -/
structure MkparentsOp where
  dirs : List FPath
  deriving DecidableEq, Repr

/-- Modelled from the spec: see `MkparentsOp`. -/
def mkparents_op (fs : FsProbe) (path : FPath) : Option MkparentsOp :=
  match (ancestorsRootFirst path).filter (fun q => !symlinkExists fs q) with
  | [] => none
  | ds => some ⟨ds⟩

/-- `op::Op` as used by the legacy `WriteAction` resolution (the variants it pushes). -/
inductive WriteOpItem where
  | rm : RmOp → WriteOpItem
  | create : FPath → WriteOpItem
  | mkdir : MkparentsOp → WriteOpItem
  | write : FPath → List UInt8 → WriteOpItem
  deriving DecidableEq, Repr

/-- A warning notice pushed during `WriteAction` resolution (`WarnNotice::Overwrite`). -/
inductive WriteNotice where
  | overwrite : FPath → WriteNotice
  deriving DecidableEq, Repr

/-- The `Done` output of legacy resolution: notices and the ordered op list. -/
structure WriteDone where
  notices : List WriteNotice
  ops : List WriteOpItem
  deriving DecidableEq, Repr

/-- `Resolution`: legacy resolution outcome (`Done`, or `Skip` as in the commented-out
content-match path — never produced by the current code). -/
inductive WriteResolution where
  | done : WriteDone → WriteResolution
  | skip : FPath → WriteResolution
  deriving DecidableEq, Repr

/-- `WriteAction::resolve` (`write.rs:21-85`): branch on `symlink_metadata(dest)` — an
existing regular file warns and pushes `Rm { dest, dir: false }`; a directory or symlink
warns and pushes `Rm { dest, dir: is_dir }`; an absent dest pushes `Create { dest }`.
Then the optional `mkparents_op`, then `Write { dest, contents.into_bytes() }`; the
result is always `Ok(Resolution::Done(..))`. -/
def WriteAction.resolve (fs : FsProbe) (a : WriteAction) :
    Except NoError WriteResolution :=
  let start : List WriteNotice × List WriteOpItem :=
    match fs.meta a.dest with
    | some m =>
        if m.is_file then
          ([WriteNotice.overwrite a.dest], [WriteOpItem.rm ⟨a.dest, false⟩])
        else if m.is_dir || m.is_symlink then
          ([WriteNotice.overwrite a.dest], [WriteOpItem.rm ⟨a.dest, m.is_dir⟩])
        else ([], [WriteOpItem.create a.dest])
    | none => ([], [WriteOpItem.create a.dest])
  let withParents :=
    match mkparents_op fs a.dest with
    | some op => start.2 ++ [WriteOpItem.mkdir op]
    | none => start.2
  Except.ok (WriteResolution.done
    ⟨start.1, withParents ++ [WriteOpItem.write a.dest (intoBytes a.contents)]⟩)

/-! ## Concrete filesystem probes for witnesses and counterexamples -/

/-- Metadata of a regular file. -/
def fileMeta : Metadata := ⟨true, false, false⟩

/-- Metadata of a directory. -/
def dirMeta : Metadata := ⟨false, true, false⟩

/-- Metadata of a symlink (symlink metadata is not followed: the file and directory flags
are clear). -/
def symlinkMeta : Metadata := ⟨false, false, true⟩

/-- Probe where `/`, `/home` and `/pkg` are directories, `/pkg/a` and `/home/x` are
regular files both reading "hello", `/home/s` is a symlink to `/pkg/a`, and everything
else is absent. -/
def fsDemo : FsProbe where
  meta q :=
    if q = [] ∨ q = ["home"] ∨ q = ["pkg"] then some dirMeta
    else if q = ["pkg", "a"] ∨ q = ["home", "x"] then some fileMeta
    else if q = ["home", "s"] then some symlinkMeta
    else none
  readLink q := if q = ["home", "s"] then some ["pkg", "a"] else none
  readStr q := if q = ["pkg", "a"] ∨ q = ["home", "x"] then some "hello" else none

/-! ## Helper lemmas about rollback walks -/

theorem takeActions_decomp {T : Type} (l : List (Record T)) :
    l = (takeActions l).map Record.action ++ takeRest l := by
  induction l with
  | nil => rfl
  | cons r rs ih =>
      cases r with
      | action a =>
          simp only [takeActions, takeRest, List.map_cons, List.cons_append]
          exact congrArg _ ih
      | commit => simp [takeActions, takeRest]

theorem takeRest_shape {T : Type} (l : List (Record T)) :
    takeRest l = [] ∨ ∃ rs, takeRest l = Record.commit :: rs := by
  induction l with
  | nil => left; rfl
  | cons r rs ih =>
      cases r with
      | action a => simpa [takeRest] using ih
      | commit => right; exact ⟨rs, rfl⟩

theorem takeActions_length_le {T : Type} (l : List (Record T)) :
    (takeActions l).length ≤ l.length := by
  induction l with
  | nil => simp [takeActions]
  | cons r rs ih =>
      cases r with
      | action a =>
          simp only [takeActions, List.length_cons]
          omega
      | commit => simp [takeActions]

theorem getBack_ext {T : Type} (js E : List (Record T)) (i : Nat) (h : E.length ≤ i) :
    getBack (js ++ E) i = getBack js (i - E.length) := by
  unfold getBack
  rw [List.reverse_append, List.getElem?_append_right (by simpa using h), List.length_reverse]

theorem isEmpty_append_singleton {α : Type} (l : List α) (a : α) :
    (l ++ [a]).isEmpty = false := by
  cases l <;> rfl

/-- Behaviour of a full rollback walk from a state in which `pre` of the trailing actions
have already been rolled back: the remaining trailing actions `ts` are yielded (their
rollbacks, newest first), each appended to the journal, and a final commit is appended
exactly when any inverse was appended at all. -/
theorem run_spec {T : Type} (rb : T → T) (js rest : List (Record T)) (k : Nat)
    (hrest : rest = [] ∨ ∃ rs, rest = Record.commit :: rs) :
    ∀ (ts pre : List T) (fuel : Nat),
      js.reverse.drop k = (pre ++ ts).map Record.action ++ rest →
      ts.length + 1 ≤ fuel →
      (RollbackIter.run rb fuel
          ⟨js ++ pre.map (fun x => Record.action (rb x)), k + 2 * pre.length, !pre.isEmpty⟩).1
        = ts.map rb
      ∧ (RollbackIter.run rb fuel
          ⟨js ++ pre.map (fun x => Record.action (rb x)), k + 2 * pre.length, !pre.isEmpty⟩).2.journal
        = js ++ (pre ++ ts).map (fun x => Record.action (rb x))
            ++ cond (pre ++ ts).isEmpty [] [Record.commit] := by
  intro ts
  induction ts with
  | nil =>
      intro pre fuel hdec hfuel
      obtain ⟨f, rfl⟩ : ∃ f, fuel = f + 1 := ⟨fuel - 1, by omega⟩
      have hstep : getBack (js ++ pre.map (fun x => Record.action (rb x)))
          (k + 2 * pre.length) = rest[0]? := by
        rw [getBack_ext _ _ _ (by simp; omega)]
        have harith : k + 2 * pre.length - (pre.map (fun x => Record.action (rb x))).length
            = k + pre.length := by simp; omega
        rw [harith]
        unfold getBack
        rw [← List.getElem?_drop, hdec]
        rw [List.getElem?_append_right (by simp)]
        simp
      cases pre with
      | nil =>
          have hnext : RollbackIter.next rb
              ⟨js ++ ([] : List T).map (fun x => Record.action (rb x)), k + 2 * ([] : List T).length,
                !([] : List T).isEmpty⟩
              = (none, ⟨js ++ ([] : List T).map (fun x => Record.action (rb x)),
                  k + 2 * ([] : List T).length, !([] : List T).isEmpty⟩) := by
            unfold RollbackIter.next
            rcases hrest with h | ⟨rs, h⟩ <;> subst h <;> simp_all
          refine ⟨?_, ?_⟩ <;>
            (simp only [RollbackIter.run]; rw [hnext]; simp)
      | cons q qs =>
          have hnext : RollbackIter.next rb
              ⟨js ++ ((q :: qs) : List T).map (fun x => Record.action (rb x)),
                k + 2 * ((q :: qs) : List T).length, !((q :: qs) : List T).isEmpty⟩
              = (none, ⟨js ++ ((q :: qs) : List T).map (fun x => Record.action (rb x)) ++ [Record.commit],
                  k + 2 * ((q :: qs) : List T).length + 2, true⟩) := by
            unfold RollbackIter.next
            rcases hrest with h | ⟨rs, h⟩ <;> subst h <;> simp_all
          refine ⟨?_, ?_⟩ <;>
            (simp only [RollbackIter.run]; rw [hnext]; simp)
  | cons a ts ih =>
      intro pre fuel hdec hfuel
      obtain ⟨f, rfl⟩ : ∃ f, fuel = f + 1 := ⟨fuel - 1, by omega⟩
      have hstep : getBack (js ++ pre.map (fun x => Record.action (rb x)))
          (k + 2 * pre.length) = some (Record.action a) := by
        rw [getBack_ext _ _ _ (by simp; omega)]
        have harith : k + 2 * pre.length - (pre.map (fun x => Record.action (rb x))).length
            = k + pre.length := by simp; omega
        rw [harith]
        unfold getBack
        rw [← List.getElem?_drop, hdec]
        rw [List.map_append, List.append_assoc]
        rw [List.getElem?_append_right (by simp)]
        simp
      have hs2 : RollbackIter.mk (T := T)
          ((js ++ pre.map (fun x => Record.action (rb x))) ++ [Record.action (rb a)])
          (k + 2 * pre.length + 2) true
          = ⟨js ++ (pre ++ [a]).map (fun x => Record.action (rb x)),
              k + 2 * (pre ++ [a]).length, !(pre ++ [a]).isEmpty⟩ := by
        rw [isEmpty_append_singleton]
        simp
        omega
      have hnext : RollbackIter.next rb
          ⟨js ++ pre.map (fun x => Record.action (rb x)), k + 2 * pre.length, !pre.isEmpty⟩
          = (some (rb a), ⟨js ++ (pre ++ [a]).map (fun x => Record.action (rb x)),
              k + 2 * (pre ++ [a]).length, !(pre ++ [a]).isEmpty⟩) := by
        rw [← hs2]
        unfold RollbackIter.next
        rw [hstep]
      have iha := ih (pre ++ [a]) f
        (by rw [← List.append_cons]; exact hdec)
        (by simp at hfuel ⊢; omega)
      rw [← List.append_cons] at iha
      constructor
      · simp only [RollbackIter.run]
        rw [hnext]
        simp only []
        rw [iha.1]
        simp
      · simp only [RollbackIter.run]
        rw [hnext]
        simp only []
        exact iha.2

/-- C1: for every journal, a `RollbackIter` starting at reverse position `k` walks the
journal backwards; for each `Action(a)` encountered it yields `a.rollback()` and appends
`Action(a.rollback())` to the same journal; it terminates at a `Commit` record or the
journal's beginning, appending exactly one trailing `Commit` record before returning
`None` if and only if at least one inverse was appended during the iteration (so on an
empty journal, or one ending in `Commit`, `rollback()` appends nothing). -/
theorem c1_rollback_iter_walk {T : Type} (rb : T → T) (js : List (Record T)) (k : Nat) :
    rollbackFrom rb js k =
      ((takeActions (js.reverse.drop k)).map rb,
       js ++ (takeActions (js.reverse.drop k)).map (fun x => Record.action (rb x))
          ++ cond (takeActions (js.reverse.drop k)).isEmpty [] [Record.commit]) := by
  have hdec : js.reverse.drop k
      = (([] : List T) ++ takeActions (js.reverse.drop k)).map Record.action
        ++ takeRest (js.reverse.drop k) := by
    simpa using takeActions_decomp (js.reverse.drop k)
  have hfuel : (takeActions (js.reverse.drop k)).length + 1 ≤ js.length + 1 := by
    have h1 := takeActions_length_le (js.reverse.drop k)
    have h2 : (js.reverse.drop k).length ≤ js.length := by simp
    omega
  have h := run_spec rb js (takeRest (js.reverse.drop k)) k
    (takeRest_shape _) (takeActions (js.reverse.drop k)) [] (js.length + 1) hdec hfuel
  simp only [List.map_nil, List.append_nil, List.nil_append, List.length_nil,
    Nat.mul_zero, Nat.add_zero, List.isEmpty_nil, Bool.not_true] at h
  unfold rollbackFrom
  exact Prod.ext h.1 h.2

/-- C2 counterexample: with the single-action journal `[Action(Forward)]`, after the first
`next()` that returns `None` (leaving the iterator at journal
`[Action(F), Action(B), Commit]`, reverse index 4, `appended` still set), a further call
to `next()` does modify the journal — it appends another `Commit` — contradicting the
claim that subsequent calls append no further records. -/
theorem c2_counterexample :
    ¬ ((RollbackIter.next Datum.rollback
          ⟨[Record.action Datum.forward, Record.action Datum.backward, Record.commit],
            4, true⟩).2.journal
        = [Record.action Datum.forward, Record.action Datum.backward, Record.commit]) := by
  decide

/-- C2 (amended): for the journal `[Action(Forward)]`, the first `next()` yields
`Forward.rollback() = Backward` and appends `Action(Backward)`; the second `next()`
returns `None` and appends the trailing `Commit`; every subsequent `next()` also returns
`None`, but (because the `appended` flag is never cleared) each such call appends one more
`Commit` record to the journal. -/
theorem c2_single_action_rollback :
    (RollbackIter.next Datum.rollback ⟨[Record.action Datum.forward], 0, false⟩
        = (some Datum.backward,
           ⟨[Record.action Datum.forward, Record.action Datum.backward], 2, true⟩))
    ∧ (RollbackIter.next Datum.rollback
          ⟨[Record.action Datum.forward, Record.action Datum.backward], 2, true⟩
        = (none,
           ⟨[Record.action Datum.forward, Record.action Datum.backward, Record.commit],
             4, true⟩))
    ∧ (RollbackIter.next Datum.rollback
          ⟨[Record.action Datum.forward, Record.action Datum.backward, Record.commit],
            4, true⟩
        = (none,
           ⟨[Record.action Datum.forward, Record.action Datum.backward, Record.commit,
              Record.commit], 6, true⟩))
    ∧ (RollbackIter.next Datum.rollback
          ⟨[Record.action Datum.forward, Record.action Datum.backward, Record.commit,
             Record.commit], 6, true⟩
        = (none,
           ⟨[Record.action Datum.forward, Record.action Datum.backward, Record.commit,
              Record.commit, Record.commit], 8, true⟩)) := by
  decide

/-- C9: `rollback_last()` returns `Some` — an iterator over the same journal positioned
one record back from the end (`idx = 1`, nothing appended yet) — if and only if the
journal's latest record is a `Commit`; for an empty journal or one whose latest record is
an `Action` it returns `None`. -/
theorem c9_rollback_last_iff {T : Type} (js : List (Record T)) :
    ((∃ it : RollbackIter T, rollbackLast js = some it
        ∧ it.journal = js ∧ it.idx = 1 ∧ it.appended = false)
      ↔ latest js = some Record.commit)
    ∧ (latest js = none → rollbackLast js = none)
    ∧ (∀ a : T, latest js = some (Record.action a) → rollbackLast js = none) := by
  unfold rollbackLast
  rcases h : latest js with _ | r
  · simp
  · cases r with
    | action a => simp
    | commit => simp

/-- C9 witness: on the journal `[Commit]`, `rollback_last()` yields an iterator at
reverse index 1. -/
theorem c9_rollback_last_iff_witness :
    ∃ it : RollbackIter Datum, rollbackLast [Record.commit] = some it
      ∧ it.journal = [Record.commit] ∧ it.idx = 1 ∧ it.appended = false :=
  (c9_rollback_last_iff [Record.commit]).1.mpr (by decide)

/-- Splitting off the deepest proper ancestor of a nonempty path. -/
theorem ancestorsRootFirst_snoc (p : FPath) (h : p ≠ []) :
    ancestorsRootFirst p = ancestorsRootFirst p.dropLast ++ [p.dropLast] := by
  unfold ancestorsRootFirst
  obtain ⟨n, hn⟩ : ∃ n, p.length = n + 1 :=
    ⟨p.length - 1, by cases p with | nil => exact absurd rfl h | cons q qs => simp⟩
  rw [hn, List.range_succ, List.map_append, List.length_dropLast, hn]
  simp only [Nat.add_sub_cancel, List.map_cons, List.map_nil]
  have hd : p.dropLast = p.take n := by
    rw [List.dropLast_eq_take, hn]
    simp
  rw [hd]
  congr 1
  apply List.map_congr_left
  intro i hi
  rw [List.take_take]
  simp only [List.mem_range] at hi
  congr 1
  omega

theorem mkdirParentsWalk_eq (fs : FsProbe) :
    ∀ (n : Nat) (p : FPath), p.length = n →
      mkdirParentsWalk fs n p
        = ((ancestorsRootFirst p).reverse.filter (fun q => !symlinkExists fs q)).map
            MkdirOp.mk := by
  intro n
  induction n with
  | zero =>
      intro p hp
      rw [List.length_eq_zero] at hp
      subst hp
      simp [mkdirParentsWalk, ancestorsRootFirst]
  | succ n ih =>
      intro p hp
      have hne : p ≠ [] := by
        intro h
        subst h
        simp at hp
      have hlen : p.dropLast.length = n := by
        rw [List.length_dropLast, hp]
        simp
      rw [ancestorsRootFirst_snoc p hne]
      simp only [mkdirParentsWalk]
      rw [ih p.dropLast hlen]
      rw [List.reverse_append]
      simp only [List.reverse_cons, List.reverse_nil, List.nil_append, List.singleton_append]
      rw [List.filter_cons]
      cases hex : symlinkExists fs p.dropLast <;> simp [hex]

theorem mkdir_parents_ops_eq (fs : FsProbe) (p : FPath) :
    mkdir_parents_ops fs p
      = ((ancestorsRootFirst p).filter (fun q => !symlinkExists fs q)).map MkdirOp.mk := by
  unfold mkdir_parents_ops
  rw [mkdirParentsWalk_eq fs p.length p rfl]
  rw [← List.map_reverse, List.filter_reverse, List.reverse_reverse]

theorem mem_ancestorsRootFirst (p q : FPath) :
    q ∈ ancestorsRootFirst p ↔ properAncestor q p := by
  unfold ancestorsRootFirst properAncestor
  simp only [List.mem_map, List.mem_range]
  constructor
  · rintro ⟨i, hi, rfl⟩
    have hl : (p.take i).length = i := by
      rw [List.length_take]
      omega
    exact ⟨by omega, by rw [hl]⟩
  · rintro ⟨hq, ht⟩
    exact ⟨q.length, hq, ht⟩

theorem ancestorsRootFirst_pairwise (p : FPath) :
    List.Pairwise properAncestor (ancestorsRootFirst p) := by
  unfold ancestorsRootFirst
  rw [List.pairwise_iff_get]
  intro i j hij
  simp only [List.get_eq_getElem, List.getElem_map, List.getElem_range]
  have hi : (i : Nat) < p.length := by
    have := i.isLt
    simpa using this
  have hj : (j : Nat) < p.length := by
    have := j.isLt
    simpa using this
  constructor
  · rw [List.length_take, List.length_take]
    omega
  · rw [List.length_take, List.take_take]
    congr 1
    omega

/-- C6: `mkdir_parents_ops` yields exactly one `Mkdir` op for each proper ancestor of the
path for which `exists_symlink` is false, emitted in root-first order (the ancestor list
is pairwise ordered by the proper-ancestor relation, so every ancestor comes before any of
its descendants, and each emitted `Mkdir` creates exactly one directory level); in
particular, for `/home/a/b/c` with `/home/a`, `/home/a/b`, `/home/a/b/c` absent, the
resolved `MkdirAction` ops are `Mkdir{/home/a}, Mkdir{/home/a/b}, Mkdir{/home/a/b/c}` in
that order. -/
theorem c6_mkdir_parents_root_first :
    (∀ (fs : FsProbe) (p : FPath),
        mkdir_parents_ops fs p
          = ((ancestorsRootFirst p).filter (fun q => !symlinkExists fs q)).map MkdirOp.mk)
    ∧ (∀ (p q : FPath), q ∈ ancestorsRootFirst p ↔ properAncestor q p)
    ∧ (∀ p : FPath, List.Pairwise properAncestor (ancestorsRootFirst p))
    ∧ MkdirAction.resolve fsDemo ⟨["home", "a", "b", "c"], true⟩
        = MkdirRes.normal
            [MkdirActionOp.mkdir ⟨["home", "a"]⟩,
             MkdirActionOp.mkdir ⟨["home", "a", "b"]⟩,
             MkdirActionOp.mkdir ⟨["home", "a", "b", "c"]⟩] :=
  ⟨mkdir_parents_ops_eq, fun p q => mem_ancestorsRootFirst p q,
   ancestorsRootFirst_pairwise, by decide⟩

/-- C6 witness: the characterisation evaluated at the concrete probe and path of the
claim's example. -/
theorem c6_mkdir_parents_root_first_witness :
    ["home", "a"] ∈ ancestorsRootFirst ["home", "a", "b", "c"]
      ∧ properAncestor ["home", "a"] ["home", "a", "b", "c"] :=
  ⟨by decide,
   (c6_mkdir_parents_root_first.2.1 ["home", "a", "b", "c"] ["home", "a"]).mp (by decide)⟩

/-- C3: the claim states that for `MkdirAction { path, parents }` with an existing
non-directory at `path`, resolution yields
`Overwrite([Rm{path, dir: false}, missing-ancestor Mkdirs, Mkdir{path}])`.  The code's
overwrite branch (`mkdir.rs:61-65`) emits only `[Rm{path, dir: false}]` — no ancestor
mkdirs and, decisively, no `Mkdir{path}` — so executing the resolved ops would remove the
file and never create the requested directory, contradicting both the action's purpose
and the source's own comment ("remove the file, and then link").  This theorem evaluates
the embedded code at the failing input (`/home/x` an existing regular file, `/` and
`/home` existing directories, `parents = true`). -/
theorem c3_mkdir_overwrite_file_eval :
    MkdirAction.resolve fsDemo ⟨["home", "x"], true⟩
        = MkdirRes.overwrite [MkdirActionOp.rm ⟨["home", "x"], false⟩]
      ∧ MkdirAction.resolve fsDemo ⟨["home", "x"], true⟩
        ≠ MkdirRes.overwrite
            [MkdirActionOp.rm ⟨["home", "x"], false⟩,
             MkdirActionOp.mkdir ⟨["home", "x"]⟩] := by
  decide

/-- The link branch of resolution never errors. -/
theorem resolve_link_ok (fs : FsProbe) (a : LinkAction) :
    ∃ r, LinkAction.resolve_link fs a = Except.ok r := by
  unfold LinkAction.resolve_link
  dsimp only
  repeat' split
  all_goals exact ⟨_, rfl⟩

/-- The copy branch of resolution never errors. -/
theorem resolve_copy_ok (fs : FsProbe) (a : LinkAction) :
    ∃ r, LinkAction.resolve_copy fs a = Except.ok r := by
  unfold LinkAction.resolve_copy
  dsimp only
  repeat' split
  all_goals exact ⟨_, rfl⟩

/-- C7: for every `LinkAction` in which `src == dest`, `resolve` returns
`Skip(SameSrcDest)` regardless of filesystem state (the probe `fs` is universally
quantified and no query of it is consulted), for both values of `copy` and of
`optional`. -/
theorem c7_same_src_dest (fs : FsProbe) (a : LinkAction) (h : a.src = a.dest) :
    LinkAction.resolve fs a = Except.ok (LinkRes.skip LinkSkip.sameSrcDest) := by
  unfold LinkAction.resolve
  rw [if_pos h]

/-- C8: for every `LinkAction` with `src != dest` whose `src` does not exist
(`exists_symlink(src)` false): if `optional` is true, `resolve` returns
`Skip(OptMissing)`; if `optional` is false, it returns `Err(SrcMissing)`; and this is the
only condition under which link resolution fails — `resolve` errors exactly when
`src != dest`, `src` is absent, and `optional` is false. -/
theorem c8_link_src_missing (fs : FsProbe) (a : LinkAction) :
    (a.src ≠ a.dest → symlinkExists fs a.src = false →
        LinkAction.resolve fs a
          = if a.optional then Except.ok (LinkRes.skip LinkSkip.optMissing)
            else Except.error LinkError.srcMissing)
    ∧ (LinkAction.resolve fs a = Except.error LinkError.srcMissing
        ↔ a.src ≠ a.dest ∧ symlinkExists fs a.src = false ∧ a.optional = false) := by
  constructor
  · intro hne hex
    unfold LinkAction.resolve
    rw [if_neg hne]
    cases hopt : a.optional <;> simp [hex, hopt]
  · constructor
    · intro herr
      unfold LinkAction.resolve at herr
      by_cases hne : a.src = a.dest
      · rw [if_pos hne] at herr
        simp at herr
      · rw [if_neg hne] at herr
        have hok : (if a.copy = true then LinkAction.resolve_copy fs a
            else LinkAction.resolve_link fs a) ≠ Except.error LinkError.srcMissing := by
          cases a.copy <;> simp only [Bool.false_eq_true, if_false, if_true]
          · obtain ⟨r, hr⟩ := resolve_link_ok fs a
            simp [hr]
          · obtain ⟨r, hr⟩ := resolve_copy_ok fs a
            simp [hr]
        cases hopt : a.optional <;> cases hex : symlinkExists fs a.src <;>
          rw [hopt, hex] at herr
        · exact ⟨hne, rfl, rfl⟩
        · exact absurd herr hok
        · simp at herr
        · exact absurd herr hok
    · rintro ⟨hne, hex, hopt⟩
      unfold LinkAction.resolve
      rw [if_neg hne, hopt, hex]

/-- C5: for a `LinkAction` with `copy = true`, `src != dest` and `src` existing, when
`dest` is a regular file whose contents equal `src`'s contents (both reads succeed with
the same string, hence the same bytes), `resolve` returns `Skip(DestExists)`. -/
theorem c5_copy_same_contents (fs : FsProbe) (a : LinkAction) (m : Metadata) (c : String)
    (hcopy : a.copy = true) (hne : a.src ≠ a.dest) (hsrc : symlinkExists fs a.src = true)
    (hm : fs.meta a.dest = some m) (hf : m.is_file = true)
    (hs : fs.readStr a.src = some c) (hd : fs.readStr a.dest = some c) :
    LinkAction.resolve fs a = Except.ok (LinkRes.skip LinkSkip.destExists) := by
  have hres : LinkAction.resolve_copy fs a = Except.ok (LinkRes.skip LinkSkip.destExists) := by
    unfold LinkAction.resolve_copy
    rw [hm]
    dsimp only
    rw [hf, hs, hd]
    simp
  unfold LinkAction.resolve
  rw [if_neg hne]
  cases hopt : a.optional <;> rw [hsrc] <;> rw [hcopy] <;> simpa using hres

/-- C10: for a `LinkAction` with `copy = true`, `src != dest` and `src` existing, when
`dest` is a symlink (the symlink flag set, the file and directory flags clear — true in
particular for a symlink whose target equals `src`, since the copy branch never reads the
link target), `resolve` returns
`Overwrite([Rm{dest, dir: false}, Copy{src, dest, dir: src_is_dir}])`, and in contrast to
the `copy = false` branch it does not return `Skip(DestExists)`. -/
theorem c10_copy_symlink_dest (fs : FsProbe) (a : LinkAction) (m : Metadata)
    (hcopy : a.copy = true) (hne : a.src ≠ a.dest) (hsrc : symlinkExists fs a.src = true)
    (hm : fs.meta a.dest = some m) (hsym : m.is_symlink = true)
    (hfile : m.is_file = false) (hdir : m.is_dir = false) :
    LinkAction.resolve fs a
        = Except.ok (LinkRes.overwrite
            [LinkActionOp.rm ⟨a.dest, false⟩,
             LinkActionOp.copy ⟨a.src, a.dest, src_is_dir fs a.src⟩])
      ∧ LinkAction.resolve fs a ≠ Except.ok (LinkRes.skip LinkSkip.destExists) := by
  have hres : LinkAction.resolve_copy fs a
      = Except.ok (LinkRes.overwrite
          [LinkActionOp.rm ⟨a.dest, false⟩,
           LinkActionOp.copy ⟨a.src, a.dest, src_is_dir fs a.src⟩]) := by
    unfold LinkAction.resolve_copy
    rw [hm]
    dsimp only
    rw [hfile, hdir, hsym]
    simp
  have hall : LinkAction.resolve fs a
      = Except.ok (LinkRes.overwrite
          [LinkActionOp.rm ⟨a.dest, false⟩,
           LinkActionOp.copy ⟨a.src, a.dest, src_is_dir fs a.src⟩]) := by
    unfold LinkAction.resolve
    rw [if_neg hne]
    cases hopt : a.optional <;> rw [hsrc] <;> rw [hcopy] <;> simpa using hres
  exact ⟨hall, by rw [hall]; simp⟩

/-- Legacy `WriteAction` resolution never skips and never fails: it always produces
`Ok(Resolution::Done(..))`. -/
theorem write_resolve_done (fs : FsProbe) (a : WriteAction) :
    ∃ d, WriteAction.resolve fs a = Except.ok (WriteResolution.done d) :=
  ⟨_, rfl⟩

/-- C4 (amended): when `dest` is an existing regular file, `resolve` succeeds with a
warning notice and the op list `Rm{dest, dir: false}`, then the missing-ancestor mkdir
op (when some ancestor is missing), then `Write{dest, contents as bytes}` — no `Create`
op is emitted in this branch (`Create` is pushed only for an absent `dest`). -/
theorem c4_write_existing_file (fs : FsProbe) (a : WriteAction) (m : Metadata)
    (hm : fs.meta a.dest = some m) (hf : m.is_file = true) :
    WriteAction.resolve fs a
      = Except.ok (WriteResolution.done
          ⟨[WriteNotice.overwrite a.dest],
           [WriteOpItem.rm ⟨a.dest, false⟩]
             ++ (match mkparents_op fs a.dest with
                 | some op => [WriteOpItem.mkdir op]
                 | none => [])
             ++ [WriteOpItem.write a.dest (intoBytes a.contents)]⟩) := by
  unfold WriteAction.resolve
  rw [hm]
  dsimp only
  rw [hf]
  cases hmk : mkparents_op fs a.dest <;> simp [hmk]

/-- C4 counterexample: at the concrete probe where `/home/x` is an existing regular file
(all its ancestors present) and contents `"hello"`, the resolved op list is
`[Rm{/home/x, dir: false}, Write{/home/x, b"hello"}]` and differs from the claimed
`[Rm, Create{/home/x}, Write]`: no `Create` op follows the `Rm`. -/
theorem c4_counterexample :
    WriteAction.resolve fsDemo ⟨["home", "x"], "hello"⟩
        ≠ Except.ok (WriteResolution.done
            ⟨[WriteNotice.overwrite ["home", "x"]],
             [WriteOpItem.rm ⟨["home", "x"], false⟩,
              WriteOpItem.create ["home", "x"],
              WriteOpItem.write ["home", "x"] (intoBytes "hello")]⟩) := by
  decide

/-- C4 witness: the amended theorem applied at the concrete probe. -/
theorem c4_write_existing_file_witness :
    WriteAction.resolve fsDemo ⟨["home", "x"], "hello"⟩
      = Except.ok (WriteResolution.done
          ⟨[WriteNotice.overwrite ["home", "x"]],
           [WriteOpItem.rm ⟨["home", "x"], false⟩]
             ++ (match mkparents_op fsDemo ["home", "x"] with
                 | some op => [WriteOpItem.mkdir op]
                 | none => [])
             ++ [WriteOpItem.write ["home", "x"] (intoBytes "hello")]⟩) :=
  c4_write_existing_file fsDemo ⟨["home", "x"], "hello"⟩ fileMeta (by decide) rfl

/-- C5 witness: copying `/pkg/a` over `/home/x` when both read "hello" is skipped. -/
theorem c5_copy_same_contents_witness :
    LinkAction.resolve fsDemo ⟨["pkg", "a"], ["home", "x"], true, false⟩
      = Except.ok (LinkRes.skip LinkSkip.destExists) :=
  c5_copy_same_contents fsDemo ⟨["pkg", "a"], ["home", "x"], true, false⟩ fileMeta "hello"
    rfl (by decide) (by decide) (by decide) rfl (by decide) (by decide)

/-- C7 witness: a link action with equal source and destination is skipped. -/
theorem c7_same_src_dest_witness :
    LinkAction.resolve fsDemo ⟨["home", "x"], ["home", "x"], false, false⟩
      = Except.ok (LinkRes.skip LinkSkip.sameSrcDest) :=
  c7_same_src_dest fsDemo ⟨["home", "x"], ["home", "x"], false, false⟩ rfl

/-- C8 witness: a non-optional link action whose source is absent errors with
`SrcMissing`. -/
theorem c8_link_src_missing_witness :
    LinkAction.resolve fsDemo ⟨["missing"], ["home", "x"], false, false⟩
      = Except.error LinkError.srcMissing :=
  (c8_link_src_missing fsDemo ⟨["missing"], ["home", "x"], false, false⟩).2.mpr
    ⟨by decide, by decide, rfl⟩

/-- C10 witness: copying `/pkg/a` onto the symlink `/home/s` (which even targets
`/pkg/a`) overwrites rather than skips. -/
theorem c10_copy_symlink_dest_witness :
    LinkAction.resolve fsDemo ⟨["pkg", "a"], ["home", "s"], true, false⟩
        = Except.ok (LinkRes.overwrite
            [LinkActionOp.rm ⟨["home", "s"], false⟩,
             LinkActionOp.copy ⟨["pkg", "a"], ["home", "s"], src_is_dir fsDemo ["pkg", "a"]⟩])
      ∧ LinkAction.resolve fsDemo ⟨["pkg", "a"], ["home", "s"], true, false⟩
        ≠ Except.ok (LinkRes.skip LinkSkip.destExists) :=
  c10_copy_symlink_dest fsDemo ⟨["pkg", "a"], ["home", "s"], true, false⟩ symlinkMeta
    rfl (by decide) (by decide) (by decide) rfl rfl rfl
